import Mathlib

/-!
Verification of the two OpenWebUI pipeline scripts
(`alice_paralegal_pipeline.py` and `legal_vision_pipeline.py`) against their
natural-language specification.  The Python code is shallowly embedded:
dynamically typed message values become the inductive `PyVal`, Python
exceptions become `Except String`, the Ollama HTTP transport and the OCR
engine become explicit oracles passed to the functions that use them, and
generator functions become functions returning the list of yielded fragments
together with the list of HTTP requests they issued.
-/

namespace OpenWebUI

/-- Dynamic Python values as they occur in a chat message list: strings,
lists, string-keyed dicts, and a catch-all `pnone` for every other Python
object (None, ints, bools, ...), which the two scripts never inspect beyond
`isinstance` checks that fail on it. -/
inductive PyVal where
  | pstr (s : String)
  | plist (xs : List PyVal)
  | pdict (entries : List (String × PyVal))
  | pnone

/-- Python `d.get(key, default)` on the entry list of a dict (first binding
wins, as dict keys are unique). -/
def dictGetD (es : List (String × PyVal)) (k : String) (d : PyVal) : PyVal :=
  (es.lookup k).getD d

/-- Python `v == "lit"` for a dynamic value compared against a string
literal: true exactly when `v` is that string. -/
def isStrVal (v : PyVal) (lit : String) : Bool :=
  match v with
  | PyVal.pstr t => t == lit
  | _ => false

/-- Python `s.startswith(pre)`, computed on the character lists. -/
def pyStartsWith (s pre : String) : Bool :=
  pre.toList.isPrefixOf s.toList

/-- Python `s.strip()` for ASCII whitespace: drops leading and trailing
whitespace characters. -/
def pyStrip (s : String) : String :=
  String.mk (((s.toList.dropWhile Char.isWhitespace).reverse.dropWhile
    Char.isWhitespace).reverse)

/-- Everything after the first occurrence of `sep`, or `none` when `sep`
does not occur. -/
def afterChar (sep : Char) : List Char → Option (List Char)
  | [] => none
  | c :: cs => if c = sep then some cs else afterChar sep cs

/-- Python `url.split(",", 1)[1]` wrapped in its `IndexError` handler: the
entire substring after the first comma, or `none` when the URL has no comma
(`alice_paralegal_pipeline.py` line 67). -/
def splitCommaOnce (u : String) : Option String :=
  (afterChar ',' u.toList).map (fun cs => String.mk cs)

/-- Accumulator recursion behind Python `str.split(sep)`: splits at every
occurrence of `sep`, always returning at least one (possibly empty) piece. -/
def splitCharAux (sep : Char) : List Char → List Char → List (List Char)
  | [], acc => [acc.reverse]
  | c :: cs, acc =>
      if c = sep then acc.reverse :: splitCharAux sep cs []
      else splitCharAux sep cs (c :: acc)

/-- Python `s.split(sep)` for a one-character separator
(`legal_vision_pipeline.py` line 66 uses `url.split(",")`). -/
def pySplit (sep : Char) (s : String) : List String :=
  (splitCharAux sep s.toList []).map (fun cs => String.mk cs)

/-- Value of one character of the standard base64 alphabet. -/
def b64Val (c : Char) : Option Nat :=
  if 'A' ≤ c ∧ c ≤ 'Z' then some (c.toNat - 65)
  else if 'a' ≤ c ∧ c ≤ 'z' then some (c.toNat - 97 + 26)
  else if '0' ≤ c ∧ c ≤ '9' then some (c.toNat - 48 + 52)
  else if c = '+' then some 62
  else if c = '/' then some 63
  else none

/-- Bytes of a list of base64 character values, in groups of four (a final
group of two or three values yields one or two bytes). -/
def b64Bytes : List Nat → List Nat
  | a :: b :: c :: d :: rest =>
      (a * 4 + b / 16) :: ((b % 16) * 16 + c / 4) :: ((c % 4) * 64 + d) :: b64Bytes rest
  | [a, b] => [a * 4 + b / 16]
  | [a, b, c] => [a * 4 + b / 16, (b % 16) * 16 + c / 4]
  | _ => []

/-- Modelled from the Python standard library (not part of this repository):
`base64.b64decode` with `validate=False` discards characters outside the
base64 alphabet and the padding character, stops the data at the first `=`,
and raises `binascii.Error` (a subclass of `ValueError`) when the kept
character count is not a multiple of four.  Used as the concrete decode
oracle in witnesses; the extractor itself is parameterised over the decoder. -/
def b64decodeModel (s : String) : Except String (List Nat) :=
  let kept := s.toList.filter (fun c => (b64Val c).isSome || c == '=')
  let data := kept.takeWhile (fun c => c ≠ '=')
  if kept.length % 4 ≠ 0 then Except.error "Incorrect padding"
  else Except.ok (b64Bytes (data.filterMap b64Val))

/-- Python `str(x)` coercion demanded by `" ".join(text_parts)`: a non-str
element raises `TypeError` (the scripts can put non-str values into
`text_parts` via `item.get("text", "")`). -/
def strOfPy : PyVal → Except String String
  | PyVal.pstr s => Except.ok s
  | _ => Except.error "TypeError"

/-- All elements of the accumulated `text_parts` converted to `String`,
failing with `TypeError` at the first non-str element, as `" ".join` does. -/
def strList : List PyVal → Except String (List String)
  | [] => Except.ok []
  | p :: ps =>
      match strOfPy p with
      | Except.error e => Except.error e
      | Except.ok s =>
          match strList ps with
          | Except.error e => Except.error e
          | Except.ok ss => Except.ok (s :: ss)

/-- Python `sep.join(parts)` over dynamic values: `TypeError` on a non-str
element, otherwise the interleaved concatenation. -/
def pyJoin (sep : String) (parts : List PyVal) : Except String String :=
  match strList parts with
  | Except.error e => Except.error e
  | Except.ok ss => Except.ok (String.intercalate sep ss)

/-- One iteration of the inner `for item in content:` loop of
`_extract_images` (`alice_paralegal_pipeline.py` lines 59-73).  State is
(collected image byte buffers, collected text parts).  A dict item tagged
`"text"` appends its `text` field; one tagged `"image_url"` reads
`item.get("image_url", \x7b\x7d).get("url", "")` — an `AttributeError` when the
`image_url` value is not a dict — checks `url.startswith("data:image")` — an
`AttributeError` when the url value is not a str — and inside the
`try/except (IndexError, ValueError)` takes `url.split(",", 1)[1]` and
appends `base64.b64decode` of it, dropping the item when either step fails;
a plain string item is appended to the text parts; anything else is ignored. -/
def processItemA (dec : String → Except String (List Nat))
    (st : List (List Nat) × List PyVal) (item : PyVal) :
    Except String (List (List Nat) × List PyVal) :=
  match item with
  | PyVal.pdict es =>
      if isStrVal (dictGetD es "type" PyVal.pnone) "text" then
        Except.ok (st.1, st.2 ++ [dictGetD es "text" (PyVal.pstr "")])
      else if isStrVal (dictGetD es "type" PyVal.pnone) "image_url" then
        match dictGetD es "image_url" (PyVal.pdict []) with
        | PyVal.pdict ies =>
            match dictGetD ies "url" (PyVal.pstr "") with
            | PyVal.pstr url =>
                if pyStartsWith url "data:image" then
                  match splitCommaOnce url with
                  | none => Except.ok st
                  | some payload =>
                      match dec payload with
                      | Except.ok bs => Except.ok (st.1 ++ [bs], st.2)
                      | Except.error _ => Except.ok st
                else Except.ok st
            | _ => Except.error "AttributeError"
        | _ => Except.error "AttributeError"
      else Except.ok st
  | PyVal.pstr s => Except.ok (st.1, st.2 ++ [PyVal.pstr s])
  | _ => Except.ok st

/-- The inner item loop of `_extract_images`, left to right. -/
def runItemsA (dec : String → Except String (List Nat)) :
    List PyVal → List (List Nat) × List PyVal →
    Except String (List (List Nat) × List PyVal)
  | [], st => Except.ok st
  | item :: rest, st =>
      match processItemA dec st item with
      | Except.error e => Except.error e
      | Except.ok st' => runItemsA dec rest st'

/-- One iteration of the outer `for msg in messages:` loop of
`_extract_images` (`alice_paralegal_pipeline.py` lines 51-73):
`msg.get("content", "")` — an `AttributeError` when the message is not a
dict — then a str content is appended to the text parts, a list content is
walked item by item, and any other content is ignored. -/
def processMsgA (dec : String → Except String (List Nat))
    (st : List (List Nat) × List PyVal) (msg : PyVal) :
    Except String (List (List Nat) × List PyVal) :=
  match msg with
  | PyVal.pdict es =>
      match dictGetD es "content" (PyVal.pstr "") with
      | PyVal.pstr s => Except.ok (st.1, st.2 ++ [PyVal.pstr s])
      | PyVal.plist items => runItemsA dec items st
      | _ => Except.ok st
  | _ => Except.error "AttributeError"

/-- The outer message loop of `_extract_images`, left to right. -/
def runMsgsA (dec : String → Except String (List Nat)) :
    List PyVal → List (List Nat) × List PyVal →
    Except String (List (List Nat) × List PyVal)
  | [], st => Except.ok st
  | msg :: rest, st =>
      match processMsgA dec st msg with
      | Except.error e => Except.error e
      | Except.ok st' => runMsgsA dec rest st'

/-- `Pipeline._extract_images` of `alice_paralegal_pipeline.py` (lines
46-75), parameterised over the base64 decoder: walks the messages and
returns `(images, " ".join(text_parts))`. -/
def extractImagesA (dec : String → Except String (List Nat))
    (messages : List PyVal) : Except String (List (List Nat) × String) :=
  match runMsgsA dec messages ([], []) with
  | Except.error e => Except.error e
  | Except.ok (imgs, ts) =>
      match pyJoin " " ts with
      | Except.error e => Except.error e
      | Except.ok t => Except.ok (imgs, t)

/-- One iteration of the inner item loop of `_has_images`
(`legal_vision_pipeline.py` lines 57-71).  Identical to the alice variant
except for the image branch: inside `try/except IndexError` it takes
`url.split(",")[1]` — the piece between the first and second comma — and
appends that base64 string itself, with no decoding. -/
def processItemL (st : List String × List PyVal) (item : PyVal) :
    Except String (List String × List PyVal) :=
  match item with
  | PyVal.pdict es =>
      if isStrVal (dictGetD es "type" PyVal.pnone) "text" then
        Except.ok (st.1, st.2 ++ [dictGetD es "text" (PyVal.pstr "")])
      else if isStrVal (dictGetD es "type" PyVal.pnone) "image_url" then
        match dictGetD es "image_url" (PyVal.pdict []) with
        | PyVal.pdict ies =>
            match dictGetD ies "url" (PyVal.pstr "") with
            | PyVal.pstr url =>
                if pyStartsWith url "data:image" then
                  match (pySplit ',' url)[1]? with
                  | none => Except.ok st
                  | some payload => Except.ok (st.1 ++ [payload], st.2)
                else Except.ok st
            | _ => Except.error "AttributeError"
        | _ => Except.error "AttributeError"
      else Except.ok st
  | PyVal.pstr s => Except.ok (st.1, st.2 ++ [PyVal.pstr s])
  | _ => Except.ok st

/-- The inner item loop of `_has_images`, left to right. -/
def runItemsL : List PyVal → List String × List PyVal →
    Except String (List String × List PyVal)
  | [], st => Except.ok st
  | item :: rest, st =>
      match processItemL st item with
      | Except.error e => Except.error e
      | Except.ok st' => runItemsL rest st'

/-- One iteration of the outer message loop of `_has_images`
(`legal_vision_pipeline.py` lines 47-71), same shape as the alice variant. -/
def processMsgL (st : List String × List PyVal) (msg : PyVal) :
    Except String (List String × List PyVal) :=
  match msg with
  | PyVal.pdict es =>
      match dictGetD es "content" (PyVal.pstr "") with
      | PyVal.pstr s => Except.ok (st.1, st.2 ++ [PyVal.pstr s])
      | PyVal.plist items => runItemsL items st
      | _ => Except.ok st
  | _ => Except.error "AttributeError"

/-- The outer message loop of `_has_images`, left to right. -/
def runMsgsL : List PyVal → List String × List PyVal →
    Except String (List String × List PyVal)
  | [], st => Except.ok st
  | msg :: rest, st =>
      match processMsgL st msg with
      | Except.error e => Except.error e
      | Except.ok st' => runMsgsL rest st'

/-- `Pipeline._has_images` of `legal_vision_pipeline.py` (lines 42-73):
walks the messages and returns
`(len(images) > 0, images, " ".join(text_parts))`. -/
def hasImagesL (messages : List PyVal) :
    Except String (Bool × List String × String) :=
  match runMsgsL messages ([], []) with
  | Except.error e => Except.error e
  | Except.ok (imgs, ts) =>
      match pyJoin " " ts with
      | Except.error e => Except.error e
      | Except.ok t => Except.ok (decide (0 < imgs.length), imgs, t)

/-- A request issued to `POST <host>/api/generate`: the JSON body fields the
two scripts actually vary (`model`, `prompt`, `stream`, and the optional
`images` key, present exactly when the Python `images` argument is truthy). -/
structure OllamaRequest where
  model : String
  prompt : String
  stream : Bool
  images : Option (List String)
  deriving DecidableEq, Repr

/-- One line of a streamed response body, after `json.loads`: an empty
(falsy) line, a line whose JSON parse fails (`json.JSONDecodeError`), or a
parsed object with or without a `"response"` field. -/
inductive StreamLine where
  | empty
  | invalid (raw : String)
  | obj (response? : Option String)

/-- Outcome of one `requests.post` call, as seen by the scripts:
`failed msg` models the call itself raising (connection error, timeout, …);
`response status lines body` models a delivered response, read either as the
iterated lines (`stream=True`) or as the whole-body JSON parse
(`stream=False`, `Except.error` when `response.json()` raises, otherwise the
optional `"response"` field). -/
inductive HttpOutcome where
  | failed (msg : String)
  | response (status : Nat) (lines : List StreamLine)
      (body : Except String (Option String))

/-- Modelled from the requests library (not part of this repository):
`response.raise_for_status()` raises `HTTPError` exactly for status codes
400-599; informational, success and redirection codes do not raise. -/
def raiseForStatus (st : Nat) : Bool :=
  decide (400 ≤ st ∧ st < 600)

/-- Modelled from the requests library (not part of this repository): the
text of the `HTTPError` raised by `raise_for_status`; only its presence
inside the yielded error fragment matters to the claims. -/
def httpErrMessage (st : Nat) : String :=
  if st < 500 then toString st ++ " Client Error" else toString st ++ " Server Error"

/-- The error fragment `f"Error calling \x7bmodel\x7d: \x7bstr(e)\x7d"` both scripts
yield from their `except` clauses. -/
def errCall (model msg : String) : String :=
  "Error calling " ++ model ++ ": " ++ msg

/-- Fragment produced by one streamed line: `if line:` skips empty lines,
`json.JSONDecodeError` lines are skipped by `continue`, and a parsed object
yields its `"response"` field when present. -/
def chunkOfLine : StreamLine → Option String
  | StreamLine.empty => none
  | StreamLine.invalid _ => none
  | StreamLine.obj r? => r?

/-- Fragments of a streamed body, in arrival order. -/
def chunksOfLines (lines : List StreamLine) : List String :=
  lines.filterMap chunkOfLine

/-- Request built by `_call_ollama` / `_call_ollama_sync` of
`legal_vision_pipeline.py`: the `images` key is added only when the `images`
argument is truthy (a non-empty list). -/
def mkReq (model prompt : String) (stream : Bool) (images : List String) :
    OllamaRequest :=
  ⟨model, prompt, stream, if images.isEmpty then none else some images⟩

/-- Request built by `_call_ollama_stream` of `alice_paralegal_pipeline.py`
(lines 93-103): always the default reasoning model `deepseek-r1:8b`,
streaming, never any images. -/
def aliceReq (prompt : String) : OllamaRequest :=
  ⟨"deepseek-r1:8b", prompt, true, none⟩

/-- `Pipeline._call_ollama_stream` of `alice_paralegal_pipeline.py` (lines
89-116), over a transport oracle `tr`: returns (yielded fragments, issued
requests).  A raised post, or `raise_for_status` on a 4xx/5xx status, makes
the single yielded fragment the `errCall` string; otherwise each delivered
line yields its `"response"` field.  Exactly one request is ever issued. -/
def callOllamaStreamA (prompt : String) (tr : OllamaRequest → HttpOutcome) :
    List String × List OllamaRequest :=
  ((match tr (aliceReq prompt) with
    | HttpOutcome.failed e => [errCall "deepseek-r1:8b" e]
    | HttpOutcome.response st lines _ =>
        if raiseForStatus st then [errCall "deepseek-r1:8b" (httpErrMessage st)]
        else chunksOfLines lines),
   [aliceReq prompt])

/-- `Pipeline._call_ollama` of `legal_vision_pipeline.py` (lines 75-113):
with `stream=True` it behaves like the alice streamer; with `stream=False`
it yields the single fragment `data.get("response", "")`, or the `errCall`
string when `response.json()` raises. -/
def callOllamaL (model prompt : String) (images : List String) (stream : Bool)
    (tr : OllamaRequest → HttpOutcome) : List String × List OllamaRequest :=
  ((match tr (mkReq model prompt stream images) with
    | HttpOutcome.failed e => [errCall model e]
    | HttpOutcome.response st lines body =>
        if raiseForStatus st then [errCall model (httpErrMessage st)]
        else if stream then chunksOfLines lines
        else
          match body with
          | Except.ok r? => [r?.getD ""]
          | Except.error e => [errCall model e]),
   [mkReq model prompt stream images])

/-- `Pipeline._call_ollama_sync` of `legal_vision_pipeline.py` (lines
115-141): one non-streaming request, returning `data.get("response", "")`
on success and the `errCall` string on any exception. -/
def callOllamaSync (model prompt : String) (images : List String)
    (tr : OllamaRequest → HttpOutcome) : String × List OllamaRequest :=
  ((match tr (mkReq model prompt false images) with
    | HttpOutcome.failed e => errCall model e
    | HttpOutcome.response st _ body =>
        if raiseForStatus st then errCall model (httpErrMessage st)
        else
          match body with
          | Except.ok r? => r?.getD ""
          | Except.error e => errCall model e),
   [mkReq model prompt false images])

/-- `Pipeline._ocr_image` of `alice_paralegal_pipeline.py` (lines 77-87),
over an OCR oracle modelling `Image.open` + `pytesseract.image_to_string`
(an `Except.error` is any exception raised by them): the fixed diagnostic
when pytesseract is unavailable, the stripped recognised text on success,
and the inline `"Error reading image: ..."` string on a per-image error. -/
def ocrImage (tessAvail : Bool) (ocr : List Nat → Except String String)
    (imageBytes : List Nat) : String :=
  if tessAvail then
    match ocr imageBytes with
    | Except.ok text => pyStrip text
    | Except.error e => "Error reading image: " ++ e
  else "Error: pytesseract not installed"

/-- The `for i, img_bytes in enumerate(images)` OCR loop of `pipe`
(`alice_paralegal_pipeline.py` lines 133-136): per-image outputs in input
order. -/
def ocrStage (tessAvail : Bool) (ocr : List Nat → Except String String)
    (images : List (List Nat)) : List String :=
  images.map (ocrImage tessAvail ocr)

/-- Image-branch reasoning prompt of the alice `pipe`
(`alice_paralegal_pipeline.py` lines 144-156), with the Python truthiness
fallback `user_message if user_message else "What is the correct answer?"`. -/
def promptImagesA (combinedOcr userMessage : String) : String :=
  "You are a legal reasoning assistant for Texas bar exam preparation.\n\nHere is the question extracted from the image:\n"
    ++ combinedOcr
    ++ "\n\nUser asks: "
    ++ (if userMessage = "" then "What is the correct answer?" else userMessage)
    ++ "\n\nProvide thorough legal analysis:\n1. Identify the legal issue(s) being tested\n2. State the applicable rule(s) of law\n3. Apply the rule to these specific facts\n4. Analyze each answer choice - explain why it is correct or incorrect\n5. State the best answer with confidence"

/-- Bare-question reasoning prompt of the alice `pipe`
(`alice_paralegal_pipeline.py` lines 162-170; line 168 of the source ends in
two trailing spaces, preserved here). -/
def promptBareA (userMessage : String) : String :=
  "You are a legal reasoning assistant for Texas bar exam preparation.\n\nQuestion: "
    ++ userMessage
    ++ "\n\nProvide thorough legal analysis:\n1. Identify the legal issue(s)\n2. State the applicable rule(s) of law  \n3. Apply the rule to the facts\n4. Reach a conclusion"

/-- Stage-1 vision prompt of the legal `pipe` (`legal_vision_pipeline.py`
lines 159-163; the source lines end in single trailing spaces, preserved
here), with the truthiness fallback to the extracted text content. -/
def visionPromptL (userMessage textContent : String) : String :=
  "Describe this image in detail. If it contains text (like a legal question, \nexam problem, or document), transcribe ALL the text exactly as written. Include any multiple choice \noptions if present.\n\nUser's question: "
    ++ (if userMessage = "" then textContent else userMessage)

/-- Image-branch reasoning prompt of the legal `pipe`
(`legal_vision_pipeline.py` lines 175-187), with the truthiness fallback
`"Analyze this and provide legal reasoning."`. -/
def promptImagesL (imageDescription userMessage : String) : String :=
  "You are a legal reasoning assistant helping with Texas bar exam preparation.\n\nBased on this image content:\n"
    ++ imageDescription
    ++ "\n\nUser's question: "
    ++ (if userMessage = "" then "Analyze this and provide legal reasoning." else userMessage)
    ++ "\n\nProvide thorough legal analysis. If this is a multiple choice question:\n1. Identify the legal issue(s)\n2. State the applicable rule(s) of law\n3. Apply the rule to the facts\n4. Explain why each answer choice is correct or incorrect\n5. State the best answer with confidence"

/-- Bare-question reasoning prompt of the legal `pipe`
(`legal_vision_pipeline.py` lines 193-201; line 199 of the source ends in
two trailing spaces, preserved here). -/
def promptBareL (userMessage : String) : String :=
  "You are a legal reasoning assistant helping with Texas bar exam preparation.\n\nQuestion: "
    ++ userMessage
    ++ "\n\nProvide thorough legal analysis. If this is a legal question:\n1. Identify the legal issue(s)\n2. State the applicable rule(s) of law  \n3. Apply the rule to the facts\n4. Reach a conclusion"

/-- Header fragment yielded first in the image branch of the alice `pipe`. -/
def aliceHdr1 : String := "👁️ *Alice Paralegal reading image with Tesseract OCR...*\n\n"

/-- Fragment showing the combined OCR text
(`alice_paralegal_pipeline.py` line 140). -/
def extractedTextFrag (combinedOcr : String) : String :=
  "**Extracted Text:**\n```\n" ++ combinedOcr ++ "\n```\n\n---\n\n"

/-- Transition header before the reasoning stream in the alice `pipe`. -/
def aliceHdr2 : String := "⚖️ *Analyzing with deepseek-r1:8b...*\n\n"

/-- Header fragment yielded first in the image branch of the legal `pipe`. -/
def legalHdr1 : String := "🔍 *Analyzing image with llava:13b...*\n\n"

/-- Fragment showing the llava image description
(`legal_vision_pipeline.py` line 171). -/
def imageAnalysisFrag (imageDescription : String) : String :=
  "**Image Analysis:**\n" ++ imageDescription ++ "\n\n---\n\n"

/-- Transition header before the reasoning stream in the legal `pipe`. -/
def legalHdr2 : String := "⚖️ *Processing with deepseek-r1:8b for legal reasoning...*\n\n"

/-- Observable behaviour of one alice `pipe` invocation: the yielded
fragments, the arguments of the `_ocr_image` calls in invocation order, and
the HTTP requests issued. -/
structure AliceTrace where
  fragments : List String
  ocrCalls : List (List Nat)
  requests : List OllamaRequest
  deriving DecidableEq, Repr

/-- Observable behaviour of one legal `pipe` invocation: the yielded
fragments and the HTTP requests issued, in order. -/
structure LegalTrace where
  fragments : List String
  requests : List OllamaRequest
  deriving DecidableEq, Repr

/-- `Pipeline.pipe` of `alice_paralegal_pipeline.py` (lines 118-173):
extract, then — when any images were found (`if images:`) — the OCR header,
the OCR of every image joined by blank lines, the transition header, and the
streamed reasoning call on the image prompt; otherwise only the streamed
reasoning call on the bare prompt.  An uncaught exception from extraction
propagates. -/
def pipeA (dec : String → Except String (List Nat)) (tessAvail : Bool)
    (ocr : List Nat → Except String String) (userMessage : String)
    (messages : List PyVal) (tr : OllamaRequest → HttpOutcome) :
    Except String AliceTrace :=
  match extractImagesA dec messages with
  | Except.error e => Except.error e
  | Except.ok (images, _textContent) =>
      if images.isEmpty then
        Except.ok
          { fragments := (callOllamaStreamA (promptBareA userMessage) tr).1
            ocrCalls := []
            requests := (callOllamaStreamA (promptBareA userMessage) tr).2 }
      else
        let combined := String.intercalate "\n\n" (ocrStage tessAvail ocr images)
        Except.ok
          { fragments :=
              [aliceHdr1, extractedTextFrag combined, aliceHdr2]
                ++ (callOllamaStreamA (promptImagesA combined userMessage) tr).1
            ocrCalls := images
            requests := (callOllamaStreamA (promptImagesA combined userMessage) tr).2 }

/-- `Pipeline.pipe` of `legal_vision_pipeline.py` (lines 143-204): extract,
then — when `has_images` — the llava header, the synchronous vision call on
the extracted images, the image-analysis fragment, the transition header,
and the streamed reasoning call; otherwise only the streamed reasoning call
on the bare prompt. -/
def pipeL (userMessage : String) (messages : List PyVal)
    (tr : OllamaRequest → HttpOutcome) : Except String LegalTrace :=
  match hasImagesL messages with
  | Except.error e => Except.error e
  | Except.ok (hasImages, images, textContent) =>
      if hasImages then
        let s1 := callOllamaSync "llava:13b" (visionPromptL userMessage textContent) images tr
        let s2 := callOllamaL "deepseek-r1:8b" (promptImagesL s1.1 userMessage) [] true tr
        Except.ok
          { fragments := [legalHdr1, imageAnalysisFrag s1.1, legalHdr2] ++ s2.1
            requests := s1.2 ++ s2.2 }
      else
        let s2 := callOllamaL "deepseek-r1:8b" (promptBareL userMessage) [] true tr
        Except.ok { fragments := s2.1, requests := s2.2 }

/-- Substring containment as a decomposition: `pat` occurs verbatim inside
`s`. -/
def ContainsSub (s pat : String) : Prop :=
  ∃ pre post, s = pre ++ pat ++ post

/-- Whether an `Except` computation finished without a (modelled Python)
exception. -/
def okB {α : Type} : Except String α → Bool
  | Except.ok _ => true
  | Except.error _ => false

/-- Every accumulated text part is a Python str (so that `" ".join` will not
raise). -/
def allStr (ts : List PyVal) : Bool :=
  ts.all fun p =>
    match p with
    | PyVal.pstr _ => true
    | _ => false

/-- Content-part shapes on which the item loops run without raising: a dict
part tagged `"text"` must carry a str `text` field, a dict part tagged
`"image_url"` must carry a dict `image_url` value whose `url` value is a
str; any other dict tag, plain strings, and non-dict non-str items are
always safe. -/
def wellShapedItem (item : PyVal) : Bool :=
  match item with
  | PyVal.pdict es =>
      if isStrVal (dictGetD es "type" PyVal.pnone) "text" then
        match dictGetD es "text" (PyVal.pstr "") with
        | PyVal.pstr _ => true
        | _ => false
      else if isStrVal (dictGetD es "type" PyVal.pnone) "image_url" then
        match dictGetD es "image_url" (PyVal.pdict []) with
        | PyVal.pdict ies =>
            match dictGetD ies "url" (PyVal.pstr "") with
            | PyVal.pstr _ => true
            | _ => false
        | _ => false
      else true
  | _ => true

/-- Message shapes on which the extractors run without raising: the message
must be a dict; a str content and non-str non-list content are safe, a list
content needs every item well shaped. -/
def wellShapedMsg (msg : PyVal) : Bool :=
  match msg with
  | PyVal.pdict es =>
      match dictGetD es "content" (PyVal.pstr "") with
      | PyVal.pstr _ => true
      | PyVal.plist items => items.all wellShapedItem
      | _ => true
  | _ => false

/-- Every message of the list is well shaped. -/
def wellShapedMsgs (messages : List PyVal) : Bool :=
  messages.all wellShapedMsg

/-- Whether a message is a dict whose `content` (defaulting to `""`) is a
plain string. -/
def strContentMsg (m : PyVal) : Bool :=
  match m with
  | PyVal.pdict es =>
      match dictGetD es "content" (PyVal.pstr "") with
      | PyVal.pstr _ => true
      | _ => false
  | _ => false

/-- The string content of a message (empty for any other shape). -/
def contentString (m : PyVal) : String :=
  match m with
  | PyVal.pdict es =>
      match dictGetD es "content" (PyVal.pstr "") with
      | PyVal.pstr s => s
      | _ => ""
  | _ => ""

/-- A message carrying a role and a list content, as OpenWebUI sends them. -/
def mkMsg (role : String) (items : List PyVal) : PyVal :=
  PyVal.pdict [("role", PyVal.pstr role), ("content", PyVal.plist items)]

/-- An `image_url` part carrying the given data URI. -/
def mkImgItem (url : String) : PyVal :=
  PyVal.pdict [("type", PyVal.pstr "image_url"),
               ("image_url", PyVal.pdict [("url", PyVal.pstr url)])]

/-- No character of the list is the separator. -/
def noSep (sep : Char) (cs : List Char) : Bool :=
  cs.all fun c => c ≠ sep

/-- The alice item loop over a concatenation runs the first part, then the
second on the resulting state. -/
theorem runItemsA_append (dec : String → Except String (List Nat)) :
    ∀ (l1 l2 : List PyVal) (st : List (List Nat) × List PyVal),
      runItemsA dec (l1 ++ l2) st =
        match runItemsA dec l1 st with
        | Except.error e => Except.error e
        | Except.ok st' => runItemsA dec l2 st' := by
  intro l1
  induction l1 with
  | nil => intro l2 st; rfl
  | cons x xs ih =>
      intro l2 st
      cases hp : processItemA dec st x with
      | error e => simp [runItemsA, hp]
      | ok st' => simp [runItemsA, hp, ih]

/-- The legal item loop over a concatenation runs the first part, then the
second on the resulting state. -/
theorem runItemsL_append :
    ∀ (l1 l2 : List PyVal) (st : List String × List PyVal),
      runItemsL (l1 ++ l2) st =
        match runItemsL l1 st with
        | Except.error e => Except.error e
        | Except.ok st' => runItemsL l2 st' := by
  intro l1
  induction l1 with
  | nil => intro l2 st; rfl
  | cons x xs ih =>
      intro l2 st
      cases hp : processItemL st x with
      | error e => simp [runItemsL, hp]
      | ok st' => simp [runItemsL, hp, ih]

/-- Replacing one message by another that the per-message step cannot
distinguish does not change the alice message loop. -/
theorem runMsgsA_congr (dec : String → Except String (List Nat))
    (m m' : PyVal)
    (h : ∀ st, processMsgA dec st m = processMsgA dec st m') :
    ∀ (ms1 ms2 : List PyVal) (st : List (List Nat) × List PyVal),
      runMsgsA dec (ms1 ++ m :: ms2) st = runMsgsA dec (ms1 ++ m' :: ms2) st := by
  intro ms1
  induction ms1 with
  | nil =>
      intro ms2 st
      show runMsgsA dec (m :: ms2) st = runMsgsA dec (m' :: ms2) st
      simp [runMsgsA, h st]
  | cons x xs ih =>
      intro ms2 st
      cases hp : processMsgA dec st x with
      | error e => simp [runMsgsA, hp]
      | ok st' => simp [runMsgsA, hp, ih]

/-- Replacing one message by another that the per-message step cannot
distinguish does not change the legal message loop. -/
theorem runMsgsL_congr (m m' : PyVal)
    (h : ∀ st, processMsgL st m = processMsgL st m') :
    ∀ (ms1 ms2 : List PyVal) (st : List String × List PyVal),
      runMsgsL (ms1 ++ m :: ms2) st = runMsgsL (ms1 ++ m' :: ms2) st := by
  intro ms1
  induction ms1 with
  | nil =>
      intro ms2 st
      show runMsgsL (m :: ms2) st = runMsgsL (m' :: ms2) st
      simp [runMsgsL, h st]
  | cons x xs ih =>
      intro ms2 st
      cases hp : processMsgL st x with
      | error e => simp [runMsgsL, hp]
      | ok st' => simp [runMsgsL, hp, ih]

/-- Appending a str part keeps the text accumulator all-str. -/
theorem allStr_append_pstr (ts : List PyVal) (s : String)
    (h : allStr ts = true) : allStr (ts ++ [PyVal.pstr s]) = true := by
  simp [allStr] at h ⊢
  exact h

/-- On a well-shaped item, the alice item step cannot raise, and keeps the
text accumulator all-str. -/
theorem processItemA_ok (dec : String → Except String (List Nat))
    (st : List (List Nat) × List PyVal) (item : PyVal)
    (hi : wellShapedItem item = true) (hs : allStr st.2 = true) :
    ∃ st', processItemA dec st item = Except.ok st' ∧ allStr st'.2 = true := by
  cases item with
  | pstr s => exact ⟨_, rfl, allStr_append_pstr _ _ hs⟩
  | plist xs => exact ⟨st, rfl, hs⟩
  | pnone => exact ⟨st, rfl, hs⟩
  | pdict es =>
      cases h1 : isStrVal (dictGetD es "type" PyVal.pnone) "text" with
      | true =>
          simp only [wellShapedItem, h1, if_true] at hi
          cases ht : dictGetD es "text" (PyVal.pstr "") with
          | pstr s =>
              refine ⟨(st.1, st.2 ++ [PyVal.pstr s]), ?_, allStr_append_pstr _ _ hs⟩
              simp [processItemA, h1, ht]
          | plist xs => rw [ht] at hi; exact absurd hi (by simp)
          | pdict fs => rw [ht] at hi; exact absurd hi (by simp)
          | pnone => rw [ht] at hi; exact absurd hi (by simp)
      | false =>
          cases h2 : isStrVal (dictGetD es "type" PyVal.pnone) "image_url" with
          | false =>
              refine ⟨st, ?_, hs⟩
              simp [processItemA, h1, h2]
          | true =>
              simp only [wellShapedItem, h1, h2, if_true, if_false,
                Bool.false_eq_true] at hi
              cases hiu : dictGetD es "image_url" (PyVal.pdict []) with
              | pdict ies =>
                  rw [hiu] at hi
                  cases hu : dictGetD ies "url" (PyVal.pstr "") with
                  | pstr url =>
                      by_cases hsw : pyStartsWith url "data:image" = true
                      · cases hsp : splitCommaOnce url with
                        | none =>
                            refine ⟨st, ?_, hs⟩
                            simp [processItemA, h1, h2, hiu, hu, hsw, hsp]
                        | some payload =>
                            cases hdec : dec payload with
                            | ok bs =>
                                refine ⟨(st.1 ++ [bs], st.2), ?_, hs⟩
                                simp [processItemA, h1, h2, hiu, hu, hsw, hsp, hdec]
                            | error e =>
                                refine ⟨st, ?_, hs⟩
                                simp [processItemA, h1, h2, hiu, hu, hsw, hsp, hdec]
                      · refine ⟨st, ?_, hs⟩
                        simp [processItemA, h1, h2, hiu, hu, hsw]
                  | plist xs => simp [hu] at hi
                  | pdict fs => simp [hu] at hi
                  | pnone => simp [hu] at hi
              | pstr s => rw [hiu] at hi; exact absurd hi (by simp)
              | plist xs => rw [hiu] at hi; exact absurd hi (by simp)
              | pnone => rw [hiu] at hi; exact absurd hi (by simp)

/-- On well-shaped items, the alice item loop cannot raise. -/
theorem runItemsA_ok (dec : String → Except String (List Nat)) :
    ∀ (items : List PyVal) (st : List (List Nat) × List PyVal),
      items.all wellShapedItem = true → allStr st.2 = true →
      ∃ st', runItemsA dec items st = Except.ok st' ∧ allStr st'.2 = true := by
  intro items
  induction items with
  | nil => intro st _ hs; exact ⟨st, rfl, hs⟩
  | cons x xs ih =>
      intro st hall hs
      simp only [List.all_cons, Bool.and_eq_true] at hall
      obtain ⟨st1, hst1, hs1⟩ := processItemA_ok dec st x hall.1 hs
      obtain ⟨st2, hst2, hs2⟩ := ih st1 hall.2 hs1
      exact ⟨st2, by simp [runItemsA, hst1, hst2], hs2⟩

/-- On a well-shaped message, the alice message step cannot raise. -/
theorem processMsgA_ok (dec : String → Except String (List Nat))
    (st : List (List Nat) × List PyVal) (msg : PyVal)
    (hm : wellShapedMsg msg = true) (hs : allStr st.2 = true) :
    ∃ st', processMsgA dec st msg = Except.ok st' ∧ allStr st'.2 = true := by
  cases msg with
  | pstr s => exact absurd hm (by simp [wellShapedMsg])
  | plist xs => exact absurd hm (by simp [wellShapedMsg])
  | pnone => exact absurd hm (by simp [wellShapedMsg])
  | pdict es =>
      cases hc : dictGetD es "content" (PyVal.pstr "") with
      | pstr s =>
          refine ⟨(st.1, st.2 ++ [PyVal.pstr s]), ?_, allStr_append_pstr _ _ hs⟩
          simp [processMsgA, hc]
      | plist items =>
          simp only [wellShapedMsg, hc] at hm
          obtain ⟨st', hst', hs'⟩ := runItemsA_ok dec items st hm hs
          exact ⟨st', by simp [processMsgA, hc, hst'], hs'⟩
      | pdict fs => exact ⟨st, by simp [processMsgA, hc], hs⟩
      | pnone => exact ⟨st, by simp [processMsgA, hc], hs⟩

/-- On well-shaped messages, the alice message loop cannot raise. -/
theorem runMsgsA_ok (dec : String → Except String (List Nat)) :
    ∀ (msgs : List PyVal) (st : List (List Nat) × List PyVal),
      wellShapedMsgs msgs = true → allStr st.2 = true →
      ∃ st', runMsgsA dec msgs st = Except.ok st' ∧ allStr st'.2 = true := by
  intro msgs
  induction msgs with
  | nil => intro st _ hs; exact ⟨st, rfl, hs⟩
  | cons m ms ih =>
      intro st hall hs
      simp only [wellShapedMsgs, List.all_cons, Bool.and_eq_true] at hall
      obtain ⟨st1, hst1, hs1⟩ := processMsgA_ok dec st m hall.1 hs
      obtain ⟨st2, hst2, hs2⟩ := ih st1 hall.2 hs1
      exact ⟨st2, by simp [runMsgsA, hst1, hst2], hs2⟩

/-- An all-str text accumulator joins without raising. -/
theorem strList_ok : ∀ (ts : List PyVal), allStr ts = true →
    ∃ ss, strList ts = Except.ok ss := by
  intro ts
  induction ts with
  | nil => intro _; exact ⟨[], rfl⟩
  | cons p ps ih =>
      intro h
      simp only [allStr, List.all_cons, Bool.and_eq_true] at h
      cases p with
      | pstr s =>
          obtain ⟨ss, hss⟩ := ih (by simpa [allStr] using h.2)
          exact ⟨s :: ss, by simp [strList, strOfPy, hss]⟩
      | plist xs => exact absurd h.1 (by simp)
      | pdict es => exact absurd h.1 (by simp)
      | pnone => exact absurd h.1 (by simp)

/-- On well-shaped messages, the alice extractor cannot raise. -/
theorem extractImagesA_ok (dec : String → Except String (List Nat))
    (msgs : List PyVal) (h : wellShapedMsgs msgs = true) :
    ∃ r, extractImagesA dec msgs = Except.ok r := by
  obtain ⟨st, hst, hs⟩ := runMsgsA_ok dec msgs ([], []) h rfl
  obtain ⟨ss, hss⟩ := strList_ok st.2 hs
  exact ⟨(st.1, String.intercalate " " ss),
    by simp [extractImagesA, hst, pyJoin, hss]⟩

/-- On a well-shaped item, the legal item step cannot raise, and keeps the
text accumulator all-str. -/
theorem processItemL_ok (st : List String × List PyVal) (item : PyVal)
    (hi : wellShapedItem item = true) (hs : allStr st.2 = true) :
    ∃ st', processItemL st item = Except.ok st' ∧ allStr st'.2 = true := by
  cases item with
  | pstr s => exact ⟨_, rfl, allStr_append_pstr _ _ hs⟩
  | plist xs => exact ⟨st, rfl, hs⟩
  | pnone => exact ⟨st, rfl, hs⟩
  | pdict es =>
      cases h1 : isStrVal (dictGetD es "type" PyVal.pnone) "text" with
      | true =>
          simp only [wellShapedItem, h1, if_true] at hi
          cases ht : dictGetD es "text" (PyVal.pstr "") with
          | pstr s =>
              refine ⟨(st.1, st.2 ++ [PyVal.pstr s]), ?_, allStr_append_pstr _ _ hs⟩
              simp [processItemL, h1, ht]
          | plist xs => rw [ht] at hi; exact absurd hi (by simp)
          | pdict fs => rw [ht] at hi; exact absurd hi (by simp)
          | pnone => rw [ht] at hi; exact absurd hi (by simp)
      | false =>
          cases h2 : isStrVal (dictGetD es "type" PyVal.pnone) "image_url" with
          | false =>
              refine ⟨st, ?_, hs⟩
              simp [processItemL, h1, h2]
          | true =>
              simp only [wellShapedItem, h1, h2, if_true, if_false,
                Bool.false_eq_true] at hi
              cases hiu : dictGetD es "image_url" (PyVal.pdict []) with
              | pdict ies =>
                  rw [hiu] at hi
                  cases hu : dictGetD ies "url" (PyVal.pstr "") with
                  | pstr url =>
                      by_cases hsw : pyStartsWith url "data:image" = true
                      · cases hsp : (pySplit ',' url)[1]? with
                        | none =>
                            refine ⟨st, ?_, hs⟩
                            simp [processItemL, h1, h2, hiu, hu, hsw, hsp]
                        | some payload =>
                            refine ⟨(st.1 ++ [payload], st.2), ?_, hs⟩
                            simp [processItemL, h1, h2, hiu, hu, hsw, hsp]
                      · refine ⟨st, ?_, hs⟩
                        simp [processItemL, h1, h2, hiu, hu, hsw]
                  | plist xs => simp [hu] at hi
                  | pdict fs => simp [hu] at hi
                  | pnone => simp [hu] at hi
              | pstr s => rw [hiu] at hi; exact absurd hi (by simp)
              | plist xs => rw [hiu] at hi; exact absurd hi (by simp)
              | pnone => rw [hiu] at hi; exact absurd hi (by simp)

/-- On well-shaped items, the legal item loop cannot raise. -/
theorem runItemsL_ok :
    ∀ (items : List PyVal) (st : List String × List PyVal),
      items.all wellShapedItem = true → allStr st.2 = true →
      ∃ st', runItemsL items st = Except.ok st' ∧ allStr st'.2 = true := by
  intro items
  induction items with
  | nil => intro st _ hs; exact ⟨st, rfl, hs⟩
  | cons x xs ih =>
      intro st hall hs
      simp only [List.all_cons, Bool.and_eq_true] at hall
      obtain ⟨st1, hst1, hs1⟩ := processItemL_ok st x hall.1 hs
      obtain ⟨st2, hst2, hs2⟩ := ih st1 hall.2 hs1
      exact ⟨st2, by simp [runItemsL, hst1, hst2], hs2⟩

/-- On a well-shaped message, the legal message step cannot raise. -/
theorem processMsgL_ok (st : List String × List PyVal) (msg : PyVal)
    (hm : wellShapedMsg msg = true) (hs : allStr st.2 = true) :
    ∃ st', processMsgL st msg = Except.ok st' ∧ allStr st'.2 = true := by
  cases msg with
  | pstr s => exact absurd hm (by simp [wellShapedMsg])
  | plist xs => exact absurd hm (by simp [wellShapedMsg])
  | pnone => exact absurd hm (by simp [wellShapedMsg])
  | pdict es =>
      cases hc : dictGetD es "content" (PyVal.pstr "") with
      | pstr s =>
          refine ⟨(st.1, st.2 ++ [PyVal.pstr s]), ?_, allStr_append_pstr _ _ hs⟩
          simp [processMsgL, hc]
      | plist items =>
          simp only [wellShapedMsg, hc] at hm
          obtain ⟨st', hst', hs'⟩ := runItemsL_ok items st hm hs
          exact ⟨st', by simp [processMsgL, hc, hst'], hs'⟩
      | pdict fs => exact ⟨st, by simp [processMsgL, hc], hs⟩
      | pnone => exact ⟨st, by simp [processMsgL, hc], hs⟩

/-- On well-shaped messages, the legal message loop cannot raise. -/
theorem runMsgsL_ok :
    ∀ (msgs : List PyVal) (st : List String × List PyVal),
      wellShapedMsgs msgs = true → allStr st.2 = true →
      ∃ st', runMsgsL msgs st = Except.ok st' ∧ allStr st'.2 = true := by
  intro msgs
  induction msgs with
  | nil => intro st _ hs; exact ⟨st, rfl, hs⟩
  | cons m ms ih =>
      intro st hall hs
      simp only [wellShapedMsgs, List.all_cons, Bool.and_eq_true] at hall
      obtain ⟨st1, hst1, hs1⟩ := processMsgL_ok st m hall.1 hs
      obtain ⟨st2, hst2, hs2⟩ := ih st1 hall.2 hs1
      exact ⟨st2, by simp [runMsgsL, hst1, hst2], hs2⟩

/-- On well-shaped messages, the legal extractor cannot raise. -/
theorem hasImagesL_ok (msgs : List PyVal) (h : wellShapedMsgs msgs = true) :
    ∃ r, hasImagesL msgs = Except.ok r := by
  obtain ⟨st, hst, hs⟩ := runMsgsL_ok msgs ([], []) h rfl
  obtain ⟨ss, hss⟩ := strList_ok st.2 hs
  exact ⟨(decide (0 < st.1.length), st.1, String.intercalate " " ss),
    by simp [hasImagesL, hst, pyJoin, hss]⟩

/-- On well-shaped messages, the whole alice `pipe` cannot raise. -/
theorem pipeA_ok (dec : String → Except String (List Nat)) (tessAvail : Bool)
    (ocr : List Nat → Except String String) (userMessage : String)
    (msgs : List PyVal) (tr : OllamaRequest → HttpOutcome)
    (h : wellShapedMsgs msgs = true) :
    okB (pipeA dec tessAvail ocr userMessage msgs tr) = true := by
  obtain ⟨r, hr⟩ := extractImagesA_ok dec msgs h
  rcases r with ⟨images, textContent⟩
  cases he : images.isEmpty with
  | true => simp [pipeA, hr, he, okB]
  | false => simp [pipeA, hr, he, okB]

/-- On well-shaped messages, the whole legal `pipe` cannot raise. -/
theorem pipeL_ok (userMessage : String) (msgs : List PyVal)
    (tr : OllamaRequest → HttpOutcome) (h : wellShapedMsgs msgs = true) :
    okB (pipeL userMessage msgs tr) = true := by
  obtain ⟨r, hr⟩ := hasImagesL_ok msgs h
  rcases r with ⟨hasImages, images, textContent⟩
  cases hasImages with
  | true => simp [pipeL, hr, okB]
  | false => simp [pipeL, hr, okB]

/-- A mapped list of str parts joins back to exactly those strings. -/
theorem strList_pstrMap : ∀ ss : List String,
    strList (ss.map PyVal.pstr) = Except.ok ss := by
  intro ss
  induction ss with
  | nil => rfl
  | cons s ss ih => simp [strList, strOfPy, ih]

/-- On messages whose content is a plain string, the alice message loop just
appends each content string, in order. -/
theorem runMsgsA_strContent (dec : String → Except String (List Nat)) :
    ∀ (msgs : List PyVal) (imgs : List (List Nat)) (ts : List PyVal),
      msgs.all strContentMsg = true →
      runMsgsA dec msgs (imgs, ts) =
        Except.ok (imgs, ts ++ msgs.map (fun m => PyVal.pstr (contentString m))) := by
  intro msgs
  induction msgs with
  | nil => intro imgs ts _; simp [runMsgsA]
  | cons m ms ih =>
      intro imgs ts hall
      simp only [List.all_cons, Bool.and_eq_true] at hall
      cases m with
      | pstr s => exact absurd hall.1 (by simp [strContentMsg])
      | plist xs => exact absurd hall.1 (by simp [strContentMsg])
      | pnone => exact absurd hall.1 (by simp [strContentMsg])
      | pdict es =>
          cases hc : dictGetD es "content" (PyVal.pstr "") with
          | pstr s =>
              have hstep : processMsgA dec (imgs, ts) (PyVal.pdict es) =
                  Except.ok (imgs, ts ++ [PyVal.pstr s]) := by
                simp [processMsgA, hc]
              simp [runMsgsA, hstep, ih, hall.2, contentString, hc]
          | plist xs =>
              have := hall.1
              simp [strContentMsg, hc] at this
          | pdict fs =>
              have := hall.1
              simp [strContentMsg, hc] at this
          | pnone =>
              have := hall.1
              simp [strContentMsg, hc] at this

/-- On messages whose content is a plain string, the legal message loop just
appends each content string, in order. -/
theorem runMsgsL_strContent :
    ∀ (msgs : List PyVal) (imgs : List String) (ts : List PyVal),
      msgs.all strContentMsg = true →
      runMsgsL msgs (imgs, ts) =
        Except.ok (imgs, ts ++ msgs.map (fun m => PyVal.pstr (contentString m))) := by
  intro msgs
  induction msgs with
  | nil => intro imgs ts _; simp [runMsgsL]
  | cons m ms ih =>
      intro imgs ts hall
      simp only [List.all_cons, Bool.and_eq_true] at hall
      cases m with
      | pstr s => exact absurd hall.1 (by simp [strContentMsg])
      | plist xs => exact absurd hall.1 (by simp [strContentMsg])
      | pnone => exact absurd hall.1 (by simp [strContentMsg])
      | pdict es =>
          cases hc : dictGetD es "content" (PyVal.pstr "") with
          | pstr s =>
              have hstep : processMsgL (imgs, ts) (PyVal.pdict es) =
                  Except.ok (imgs, ts ++ [PyVal.pstr s]) := by
                simp [processMsgL, hc]
              simp [runMsgsL, hstep, ih, hall.2, contentString, hc]
          | plist xs =>
              have := hall.1
              simp [strContentMsg, hc] at this
          | pdict fs =>
              have := hall.1
              simp [strContentMsg, hc] at this
          | pnone =>
              have := hall.1
              simp [strContentMsg, hc] at this

/-- On a separator-free suffix, the split accumulator closes into a single
piece. -/
theorem splitCharAux_noSep : ∀ (cs acc : List Char), noSep ',' cs = true →
    splitCharAux ',' cs acc = [acc.reverse ++ cs] := by
  intro cs
  induction cs with
  | nil => intro acc _; simp [splitCharAux]
  | cons c cs ih =>
      intro acc h
      simp only [noSep, List.all_cons, Bool.and_eq_true, decide_eq_true_eq] at h
      simp [splitCharAux, h.1, ih (c :: acc) h.2]

/-- A separator-free list has nothing after the first separator. -/
theorem afterChar_noSep : ∀ cs : List Char, noSep ',' cs = true →
    afterChar ',' cs = none := by
  intro cs
  induction cs with
  | nil => intro _; rfl
  | cons c cs ih =>
      intro h
      simp only [noSep, List.all_cons, Bool.and_eq_true, decide_eq_true_eq] at h
      simp [afterChar, h.1, ih h.2]

/-- Every character list is separator-free or splits at its first
separator. -/
theorem sepDecomp : ∀ cs : List Char,
    noSep ',' cs = true ∨
      ∃ pre post, cs = pre ++ ',' :: post ∧ noSep ',' pre = true := by
  intro cs
  induction cs with
  | nil => left; rfl
  | cons c cs ih =>
      by_cases hc : c = ','
      · right
        exact ⟨[], cs, by simp [hc], rfl⟩
      · cases ih with
        | inl h => left; simp [noSep, hc, h] at h ⊢; exact h
        | inr h =>
            obtain ⟨pre, post, hcs, hpre⟩ := h
            right
            refine ⟨c :: pre, post, by simp [hcs], ?_⟩
            simp [noSep, hc] at hpre ⊢
            exact hpre

/-- The split accumulator breaks at the first separator. -/
theorem splitCharAux_sep : ∀ (pre : List Char), noSep ',' pre = true →
    ∀ (post acc : List Char),
      splitCharAux ',' (pre ++ ',' :: post) acc =
        (acc.reverse ++ pre) :: splitCharAux ',' post [] := by
  intro pre
  induction pre with
  | nil => intro _ post acc; simp [splitCharAux]
  | cons c cs ih =>
      intro h post acc
      simp only [noSep, List.all_cons, Bool.and_eq_true, decide_eq_true_eq] at h
      simp [splitCharAux, h.1, ih h.2 post (c :: acc)]

/-- The suffix after the first separator is the part past the separator-free
head. -/
theorem afterChar_sep : ∀ (pre : List Char), noSep ',' pre = true →
    ∀ post : List Char, afterChar ',' (pre ++ ',' :: post) = some post := by
  intro pre
  induction pre with
  | nil => intro _ post; simp [afterChar]
  | cons c cs ih =>
      intro h post
      simp only [noSep, List.all_cons, Bool.and_eq_true, decide_eq_true_eq] at h
      simp [afterChar, h.1, ih h.2 post]

/-- The split accumulator always produces at least one piece. -/
theorem splitCharAux_length_pos : ∀ (cs acc : List Char),
    0 < (splitCharAux ',' cs acc).length := by
  intro cs
  induction cs with
  | nil => intro acc; simp [splitCharAux]
  | cons c cs ih =>
      intro acc
      by_cases hc : c = ','
      · simp [splitCharAux, hc]
      · simp only [splitCharAux, if_neg hc]
        exact ih (c :: acc)

/-- A one-piece split means the input had no separator. -/
theorem splitCharAux_len1 : ∀ (cs acc : List Char),
    (splitCharAux ',' cs acc).length = 1 → noSep ',' cs = true := by
  intro cs
  induction cs with
  | nil => intro acc _; rfl
  | cons c cs ih =>
      intro acc h
      by_cases hc : c = ','
      · subst hc
        have hstep : splitCharAux ',' (',' :: cs) acc =
            acc.reverse :: splitCharAux ',' cs [] := by
          simp [splitCharAux]
        rw [hstep, List.length_cons] at h
        have := splitCharAux_length_pos cs []
        omega
      · simp only [splitCharAux, if_neg hc] at h
        have := ih (c :: acc) h
        simp [noSep, hc] at this ⊢
        exact this

/-- When the whole URL splits into at most two comma-separated pieces,
`url.split(",")[1]` of the legal variant and `url.split(",", 1)[1]` of the
alice variant agree. -/
theorem pySplit_get1_eq (u : String)
    (h : (pySplit ',' u).length ≤ 2) :
    (pySplit ',' u)[1]? = splitCommaOnce u := by
  unfold pySplit at h ⊢
  unfold splitCommaOnce
  cases sepDecomp u.toList with
  | inl hno =>
      have h1 : splitCharAux ',' u.toList [] = [u.toList] := by
        simpa using splitCharAux_noSep u.toList [] hno
      rw [h1, afterChar_noSep u.toList hno]
      rfl
  | inr hsplit =>
      obtain ⟨pre, post, hcs, hpre⟩ := hsplit
      have h1 : splitCharAux ',' u.toList [] = pre :: splitCharAux ',' post [] := by
        rw [hcs]
        simpa using splitCharAux_sep pre hpre post []
      rw [h1] at h ⊢
      rw [hcs, afterChar_sep pre hpre post]
      have hp := splitCharAux_length_pos post []
      simp only [List.length_map, List.length_cons] at h
      have hlen : (splitCharAux ',' post []).length = 1 := by omega
      have h2 : splitCharAux ',' post [] = [post] := by
        simpa using splitCharAux_noSep post [] (splitCharAux_len1 post [] hlen)
      rw [h2]
      rfl

/-- The alice item step reduced on a concrete `image_url` part: only the
data-URI check, the comma split and the decode remain. -/
theorem processItemA_mkImgItem (dec : String → Except String (List Nat))
    (st : List (List Nat) × List PyVal) (u : String) :
    processItemA dec st (mkImgItem u) =
      if pyStartsWith u "data:image" then
        match splitCommaOnce u with
        | none => Except.ok st
        | some payload =>
            match dec payload with
            | Except.ok bs => Except.ok (st.1 ++ [bs], st.2)
            | Except.error _ => Except.ok st
      else Except.ok st := rfl

/-- The legal item step reduced on a concrete `image_url` part. -/
theorem processItemL_mkImgItem (st : List String × List PyVal) (u : String) :
    processItemL st (mkImgItem u) =
      if pyStartsWith u "data:image" then
        match (pySplit ',' u)[1]? with
        | none => Except.ok st
        | some payload => Except.ok (st.1 ++ [payload], st.2)
      else Except.ok st := rfl

/-- A data-URI image part whose payload split or decode fails leaves the
alice item state untouched (the `except (IndexError, ValueError): pass`). -/
theorem processItemA_malformed (dec : String → Except String (List Nat))
    (u : String) (hsw : pyStartsWith u "data:image" = true)
    (hbad : splitCommaOnce u = none ∨
      ∃ p e, splitCommaOnce u = some p ∧ dec p = Except.error e) :
    ∀ st, processItemA dec st (mkImgItem u) = Except.ok st := by
  intro st
  rw [processItemA_mkImgItem, if_pos hsw]
  cases hbad with
  | inl hn => rw [hn]
  | inr hex =>
      obtain ⟨p, e, hp, he⟩ := hex
      simp [hp, he]

/-- A data-URI image part whose URL has no comma leaves the legal item state
untouched (the `except IndexError: pass`). -/
theorem processItemL_malformed (u : String)
    (hsw : pyStartsWith u "data:image" = true)
    (hbad : (pySplit ',' u)[1]? = none) :
    ∀ st, processItemL st (mkImgItem u) = Except.ok st := by
  intro st
  rw [processItemL_mkImgItem, if_pos hsw, hbad]

/-- Dropping a malformed image part from a message's content is invisible to
the alice message step. -/
theorem processMsgA_dropBad (dec : String → Except String (List Nat))
    (u role : String) (c1 c2 : List PyVal)
    (hid : ∀ st, processItemA dec st (mkImgItem u) = Except.ok st) :
    ∀ st, processMsgA dec st (mkMsg role (c1 ++ mkImgItem u :: c2)) =
      processMsgA dec st (mkMsg role (c1 ++ c2)) := by
  intro st
  show runItemsA dec (c1 ++ mkImgItem u :: c2) st = runItemsA dec (c1 ++ c2) st
  rw [runItemsA_append dec c1 (mkImgItem u :: c2) st,
    runItemsA_append dec c1 c2 st]
  cases runItemsA dec c1 st with
  | error e => rfl
  | ok st' =>
      show runItemsA dec (mkImgItem u :: c2) st' = runItemsA dec c2 st'
      simp [runItemsA, hid st']

/-- Dropping a malformed image part from a message's content is invisible to
the legal message step. -/
theorem processMsgL_dropBad (u role : String) (c1 c2 : List PyVal)
    (hid : ∀ st, processItemL st (mkImgItem u) = Except.ok st) :
    ∀ st, processMsgL st (mkMsg role (c1 ++ mkImgItem u :: c2)) =
      processMsgL st (mkMsg role (c1 ++ c2)) := by
  intro st
  show runItemsL (c1 ++ mkImgItem u :: c2) st = runItemsL (c1 ++ c2) st
  rw [runItemsL_append c1 (mkImgItem u :: c2) st, runItemsL_append c1 c2 st]
  cases runItemsL c1 st with
  | error e => rfl
  | ok st' =>
      show runItemsL (mkImgItem u :: c2) st' = runItemsL c2 st'
      simp [runItemsL, hid st']

/-- A string built around `s` contains `s`. -/
theorem containsSub_mid (a b s : String) : ContainsSub (a ++ s ++ b) s :=
  ⟨a, b, rfl⟩

/-- The yielded error fragment always contains the failing model's
identifier. -/
theorem containsSub_errCall (model e : String) :
    ContainsSub (errCall model e) model :=
  ⟨"Error calling ", ": " ++ e, by simp [errCall, ContainsSub, String.append_assoc]⟩

/-- Claim C1, counterexample: a 304 response is a non-2xx HTTP status, but
`raise_for_status` does not raise on it, so the streaming call yields the
ordinary chunk "hi" — not a single error fragment containing the model
identifier — refuting the claim for non-2xx statuses below 400. -/
theorem claim1_counterexample :
    callOllamaStreamA "p"
        (fun _ => HttpOutcome.response 304 [StreamLine.obj (some "hi")]
          (Except.ok none)) =
      (["hi"], [aliceReq "p"])
    ∧ ¬ (200 ≤ 304 ∧ 304 ≤ 299)
    ∧ ¬ ContainsSub "hi" "deepseek-r1:8b" := by
  refine ⟨rfl, by decide, ?_⟩
  rintro ⟨p, q, hpq⟩
  have hlen := congrArg String.length hpq
  rw [String.length_append, String.length_append] at hlen
  have h2 : ("hi" : String).length = 2 := rfl
  have h14 : ("deepseek-r1:8b" : String).length = 14 := rfl
  omega

/-- Claim C1 (amended): for every streaming backend call (alice
`_call_ollama_stream`, legal `_call_ollama` with stream=True), a transport
error raised by the post, or an HTTP status in 400-599 (the statuses
`raise_for_status` treats as errors — not every non-2xx status), makes the
produced sequence's only element a single string containing the failing
model's identifier, and exactly one request is issued (no retry). -/
theorem claim1_amended (model prompt : String) (images : List String)
    (tr : OllamaRequest → HttpOutcome) (e : String) (st : Nat)
    (lines : List StreamLine) (body : Except String (Option String)) :
    (tr (aliceReq prompt) = HttpOutcome.failed e →
      callOllamaStreamA prompt tr =
        ([errCall "deepseek-r1:8b" e], [aliceReq prompt])
      ∧ ContainsSub (errCall "deepseek-r1:8b" e) "deepseek-r1:8b")
    ∧ (tr (aliceReq prompt) = HttpOutcome.response st lines body →
      raiseForStatus st = true →
      callOllamaStreamA prompt tr =
        ([errCall "deepseek-r1:8b" (httpErrMessage st)], [aliceReq prompt]))
    ∧ (tr (mkReq model prompt true images) = HttpOutcome.failed e →
      callOllamaL model prompt images true tr =
        ([errCall model e], [mkReq model prompt true images])
      ∧ ContainsSub (errCall model e) model)
    ∧ (tr (mkReq model prompt true images) = HttpOutcome.response st lines body →
      raiseForStatus st = true →
      callOllamaL model prompt images true tr =
        ([errCall model (httpErrMessage st)], [mkReq model prompt true images])) := by
  refine ⟨fun h => ⟨?_, containsSub_errCall _ _⟩, fun h hr => ?_,
    fun h => ⟨?_, containsSub_errCall _ _⟩, fun h hr => ?_⟩
  · simp [callOllamaStreamA, h]
  · simp [callOllamaStreamA, h, hr]
  · simp [callOllamaL, h]
  · simp [callOllamaL, h, hr]

/-- Claim C1, witness: concrete failed-post and 500-status calls for both
variants produce exactly the single error fragment and one request. -/
theorem claim1_witness :
    callOllamaStreamA "p" (fun _ => HttpOutcome.failed "boom") =
      ([errCall "deepseek-r1:8b" "boom"], [aliceReq "p"])
    ∧ callOllamaStreamA "p"
        (fun _ => HttpOutcome.response 500 [] (Except.ok none)) =
      ([errCall "deepseek-r1:8b" (httpErrMessage 500)], [aliceReq "p"])
    ∧ callOllamaL "llava:13b" "p" ["img"] true (fun _ => HttpOutcome.failed "boom") =
      ([errCall "llava:13b" "boom"], [mkReq "llava:13b" "p" true ["img"]])
    ∧ callOllamaL "llava:13b" "p" ["img"] true
        (fun _ => HttpOutcome.response 500 [] (Except.ok none)) =
      ([errCall "llava:13b" (httpErrMessage 500)], [mkReq "llava:13b" "p" true ["img"]]) := by
  refine ⟨?_, ?_, ?_, ?_⟩
  · exact ((claim1_amended "llava:13b" "p" ["img"]
      (fun _ => HttpOutcome.failed "boom") "boom" 500 [] (Except.ok none)).1 rfl).1
  · exact (claim1_amended "llava:13b" "p" ["img"]
      (fun _ => HttpOutcome.response 500 [] (Except.ok none)) "boom" 500 []
      (Except.ok none)).2.1 rfl rfl
  · exact ((claim1_amended "llava:13b" "p" ["img"]
      (fun _ => HttpOutcome.failed "boom") "boom" 500 [] (Except.ok none)).2.2.1 rfl).1
  · exact (claim1_amended "llava:13b" "p" ["img"]
      (fun _ => HttpOutcome.response 500 [] (Except.ok none)) "boom" 500 []
      (Except.ok none)).2.2.2 rfl rfl

/-- Claim C2, counterexample: a message that is not a dict (here the bare
string "oops") makes `msg.get("content", "")` raise `AttributeError`, and
both whole `pipe` invocations propagate that exception to the caller,
refuting "never let an exception propagate" for arbitrary shapes. -/
theorem claim2_counterexample :
    pipeA b64decodeModel true (fun _ => Except.error "err") "hi"
        [PyVal.pstr "oops"] (fun _ => HttpOutcome.failed "down") =
      Except.error "AttributeError"
    ∧ pipeL "hi" [PyVal.pstr "oops"] (fun _ => HttpOutcome.failed "down") =
      Except.error "AttributeError" :=
  ⟨rfl, rfl⟩

/-- Claim C2 (amended): for well-shaped message lists — every message a
dict; on list contents, `text`-tagged parts carry a str text, `image_url`
parts carry a dict `image_url` whose url is a str — the extractors and both
whole `pipe` invocations never raise: malformed items within that shape are
skipped locally.  A non-dict message, a non-dict `image_url` value, or a
non-str url raises an `AttributeError` that propagates. -/
theorem claim2_amended (dec : String → Except String (List Nat)) (tess : Bool)
    (ocr : List Nat → Except String String) (um : String)
    (trA trL : OllamaRequest → HttpOutcome) (msgs : List PyVal)
    (h : wellShapedMsgs msgs = true) :
    okB (extractImagesA dec msgs) = true
    ∧ okB (hasImagesL msgs) = true
    ∧ okB (pipeA dec tess ocr um msgs trA) = true
    ∧ okB (pipeL um msgs trL) = true := by
  refine ⟨?_, ?_, pipeA_ok dec tess ocr um msgs trA h, pipeL_ok um msgs trL h⟩
  · obtain ⟨r, hr⟩ := extractImagesA_ok dec msgs h
    simp [hr, okB]
  · obtain ⟨r, hr⟩ := hasImagesL_ok msgs h
    simp [hr, okB]

/-- Claim C2, witness: a list with a dict message holding unknown-tag parts,
a None part, a plain string part and a data-URI image, plus a plain-text
message, is well shaped and both pipes finish without raising. -/
theorem claim2_witness :
    wellShapedMsgs
        [mkMsg "user" [PyVal.pdict [("type", PyVal.pstr "video")], PyVal.pnone,
          PyVal.pstr "hi", mkImgItem "data:image/png;base64,aGk="],
         PyVal.pdict [("content", PyVal.pstr "q")]] = true
    ∧ okB (pipeA b64decodeModel true (fun _ => Except.error "err") "q"
        [mkMsg "user" [PyVal.pdict [("type", PyVal.pstr "video")], PyVal.pnone,
          PyVal.pstr "hi", mkImgItem "data:image/png;base64,aGk="],
         PyVal.pdict [("content", PyVal.pstr "q")]]
        (fun _ => HttpOutcome.failed "down")) = true
    ∧ okB (pipeL "q"
        [mkMsg "user" [PyVal.pdict [("type", PyVal.pstr "video")], PyVal.pnone,
          PyVal.pstr "hi", mkImgItem "data:image/png;base64,aGk="],
         PyVal.pdict [("content", PyVal.pstr "q")]]
        (fun _ => HttpOutcome.failed "down")) = true := by
  have hmain := claim2_amended b64decodeModel true (fun _ => Except.error "err")
    "q" (fun _ => HttpOutcome.failed "down") (fun _ => HttpOutcome.failed "down")
    [mkMsg "user" [PyVal.pdict [("type", PyVal.pstr "video")], PyVal.pnone,
      PyVal.pstr "hi", mkImgItem "data:image/png;base64,aGk="],
     PyVal.pdict [("content", PyVal.pstr "q")]] rfl
  exact ⟨rfl, hmain.2.2.1, hmain.2.2.2⟩

/-- Claim C3, counterexample: the legal variant never decodes the payload,
so a non-decodable base64 payload ("abc" fails `base64.b64decode`) is kept
verbatim in the image list instead of being dropped; the alice variant drops
the same part. -/
theorem claim3_counterexample :
    okB (b64decodeModel "abc") = false
    ∧ hasImagesL [mkMsg "user" [mkImgItem "data:image/png;base64,abc"]] =
        Except.ok (true, ["abc"], "")
    ∧ extractImagesA b64decodeModel
        [mkMsg "user" [mkImgItem "data:image/png;base64,abc"]] =
        Except.ok ([], "") :=
  ⟨rfl, rfl, rfl⟩

/-- Claim C3 (amended): in the alice variant a data-URI image part whose
payload is malformed (no comma, or base64 decode fails) is dropped exactly,
without raising, leaving all other images and the accumulated text as if the
part were absent; in the legal variant the same holds only for a missing
comma — a non-decodable payload is not detected because that variant never
decodes. -/
theorem claim3_amended (dec : String → Except String (List Nat))
    (role : String) (ms1 ms2 c1 c2 : List PyVal) :
    (∀ u, pyStartsWith u "data:image" = true →
      (splitCommaOnce u = none ∨
        ∃ p e, splitCommaOnce u = some p ∧ dec p = Except.error e) →
      extractImagesA dec (ms1 ++ mkMsg role (c1 ++ mkImgItem u :: c2) :: ms2) =
        extractImagesA dec (ms1 ++ mkMsg role (c1 ++ c2) :: ms2))
    ∧ (∀ u, pyStartsWith u "data:image" = true → (pySplit ',' u)[1]? = none →
      hasImagesL (ms1 ++ mkMsg role (c1 ++ mkImgItem u :: c2) :: ms2) =
        hasImagesL (ms1 ++ mkMsg role (c1 ++ c2) :: ms2)) := by
  constructor
  · intro u hsw hbad
    have hc := runMsgsA_congr dec _ _
      (processMsgA_dropBad dec u role c1 c2
        (processItemA_malformed dec u hsw hbad)) ms1 ms2 ([], [])
    unfold extractImagesA
    rw [hc]
  · intro u hsw hbad
    have hc := runMsgsL_congr _ _
      (processMsgL_dropBad u role c1 c2
        (processItemL_malformed u hsw hbad)) ms1 ms2 ([], [])
    unfold hasImagesL
    rw [hc]

/-- Claim C3, witness: dropping a failing-decode part (alice) and a
comma-less part (legal) from a concrete two-message list leaves extraction
unchanged. -/
theorem claim3_witness :
    extractImagesA b64decodeModel
        ([mkMsg "sys" [PyVal.pstr "a"]] ++
          mkMsg "user" ([PyVal.pstr "x"] ++
            mkImgItem "data:image/png;base64,abc" ::
              [mkImgItem "data:image/png;base64,aGk="]) :: []) =
      extractImagesA b64decodeModel
        ([mkMsg "sys" [PyVal.pstr "a"]] ++
          mkMsg "user" ([PyVal.pstr "x"] ++
            [mkImgItem "data:image/png;base64,aGk="]) :: [])
    ∧ hasImagesL
        ([mkMsg "sys" [PyVal.pstr "a"]] ++
          mkMsg "user" ([PyVal.pstr "x"] ++
            mkImgItem "data:imagenocomma" ::
              [mkImgItem "data:image/png;base64,aGk="]) :: []) =
      hasImagesL
        ([mkMsg "sys" [PyVal.pstr "a"]] ++
          mkMsg "user" ([PyVal.pstr "x"] ++
            [mkImgItem "data:image/png;base64,aGk="]) :: []) := by
  constructor
  · exact (claim3_amended b64decodeModel "user" [mkMsg "sys" [PyVal.pstr "a"]] []
      [PyVal.pstr "x"] [mkImgItem "data:image/png;base64,aGk="]).1
      "data:image/png;base64,abc" rfl
      (Or.inr ⟨"abc", "Incorrect padding", rfl, rfl⟩)
  · exact (claim3_amended b64decodeModel "user" [mkMsg "sys" [PyVal.pstr "a"]] []
      [PyVal.pstr "x"] [mkImgItem "data:image/png;base64,aGk="]).2
      "data:imagenocomma" rfl rfl

/-- Claim C4, counterexample: on the data URI
`data:image/png;base64,ab,cd` — whose substring after the first comma is
"ab,cd" — the legal variant extracts only "ab", the piece between the first
and second comma, refuting "the entire substring after the first comma (in
both variants)". -/
theorem claim4_counterexample :
    hasImagesL [mkMsg "user" [mkImgItem "data:image/png;base64,ab,cd"]] =
      Except.ok (true, ["ab"], "")
    ∧ splitCommaOnce "data:image/png;base64,ab,cd" = some "ab,cd"
    ∧ "ab" ≠ "ab,cd" :=
  ⟨rfl, rfl, by decide⟩

/-- Claim C4 (amended): for a dict part tagged `image_url` whose URL starts
with `data:image`, the alice variant takes the entire substring after the
first comma as payload (then decodes it), while the legal variant takes the
piece between the first and second comma; the two notions agree whenever the
URL splits into at most two comma-separated pieces (i.e. the remainder holds
no further comma).  A URL not starting with `data:image` contributes no
image in either variant. -/
theorem claim4_amended (dec : String → Except String (List Nat))
    (imgs : List (List Nat)) (ts : List PyVal)
    (limgs : List String) (lts : List PyVal) (u : String) :
    (pyStartsWith u "data:image" = true →
      processItemA dec (imgs, ts) (mkImgItem u) =
        (match splitCommaOnce u with
         | none => Except.ok (imgs, ts)
         | some p =>
             match dec p with
             | Except.ok bs => Except.ok (imgs ++ [bs], ts)
             | Except.error _ => Except.ok (imgs, ts))
      ∧ processItemL (limgs, lts) (mkImgItem u) =
        (match (pySplit ',' u)[1]? with
         | none => Except.ok (limgs, lts)
         | some p => Except.ok (limgs ++ [p], lts))
      ∧ ((pySplit ',' u).length ≤ 2 → (pySplit ',' u)[1]? = splitCommaOnce u))
    ∧ (pyStartsWith u "data:image" = false →
      processItemA dec (imgs, ts) (mkImgItem u) = Except.ok (imgs, ts)
      ∧ processItemL (limgs, lts) (mkImgItem u) = Except.ok (limgs, lts)) := by
  constructor
  · intro h
    refine ⟨?_, ?_, pySplit_get1_eq u⟩
    · rw [processItemA_mkImgItem, if_pos h]
    · rw [processItemL_mkImgItem, if_pos h]
  · intro h
    constructor
    · rw [processItemA_mkImgItem, if_neg (by simp [h])]
    · rw [processItemL_mkImgItem, if_neg (by simp [h])]

/-- Claim C4, witness: concrete evaluations on a two-comma data URI (where
the variants differ), a one-comma data URI (where they agree), and a
non-data URL (no image in either variant). -/
theorem claim4_witness :
    processItemA b64decodeModel ([], []) (mkImgItem "data:image/png;base64,ab,cd") =
      Except.ok ([[105, 183, 29]], [])
    ∧ processItemL ([], []) (mkImgItem "data:image/png;base64,ab,cd") =
      Except.ok (["ab"], [])
    ∧ (pySplit ',' "data:image/png;base64,aGk=")[1]? =
        splitCommaOnce "data:image/png;base64,aGk="
    ∧ processItemA b64decodeModel ([], []) (mkImgItem "https://x") =
      Except.ok ([], [])
    ∧ processItemL ([], []) (mkImgItem "https://x") = Except.ok ([], []) := by
  have h1 := (claim4_amended b64decodeModel [] [] [] [] "data:image/png;base64,ab,cd").1 rfl
  have h2 := (claim4_amended b64decodeModel [] [] [] [] "data:image/png;base64,aGk=").1 rfl
  have h3 := (claim4_amended b64decodeModel [] [] [] [] "https://x").2 rfl
  exact ⟨h1.1, h1.2.1, h2.2.2 (by decide), h3.1, h3.2⟩

/-- Joining a list of str parts obtained by mapping a string function is the
plain intercalation. -/
theorem pyJoin_pstrMap (f : PyVal → String) (l : List PyVal) :
    pyJoin " " (l.map fun m => PyVal.pstr (f m)) =
      Except.ok (String.intercalate " " (l.map f)) := by
  have h1 : l.map (fun m => PyVal.pstr (f m)) = (l.map f).map PyVal.pstr := by
    rw [List.map_map]
    rfl
  unfold pyJoin
  rw [h1, strList_pstrMap]

/-- Claim C5: on a message list whose every message is a dict with plain
string content, both extractors return no images and the content strings
joined with single spaces, in message order. -/
theorem claim5_main (dec : String → Except String (List Nat))
    (msgs : List PyVal) (h : msgs.all strContentMsg = true) :
    extractImagesA dec msgs =
      Except.ok ([], String.intercalate " " (msgs.map contentString))
    ∧ hasImagesL msgs =
      Except.ok (false, [], String.intercalate " " (msgs.map contentString)) := by
  constructor
  · have hr := runMsgsA_strContent dec msgs [] [] h
    rw [List.nil_append] at hr
    simp [extractImagesA, hr, pyJoin_pstrMap]
  · have hr := runMsgsL_strContent msgs [] [] h
    rw [List.nil_append] at hr
    simp [hasImagesL, hr, pyJoin_pstrMap]

/-- Claim C5, witness: two plain-string messages extract to zero images and
the space-joined text, in both variants. -/
theorem claim5_witness :
    [PyVal.pdict [("role", PyVal.pstr "user"), ("content", PyVal.pstr "hello")],
      PyVal.pdict [("content", PyVal.pstr "world")]].all strContentMsg = true
    ∧ extractImagesA b64decodeModel
        [PyVal.pdict [("role", PyVal.pstr "user"), ("content", PyVal.pstr "hello")],
          PyVal.pdict [("content", PyVal.pstr "world")]] =
      Except.ok ([], "hello world")
    ∧ hasImagesL
        [PyVal.pdict [("role", PyVal.pstr "user"), ("content", PyVal.pstr "hello")],
          PyVal.pdict [("content", PyVal.pstr "world")]] =
      Except.ok (false, [], "hello world") := by
  have hmain := claim5_main b64decodeModel
    [PyVal.pdict [("role", PyVal.pstr "user"), ("content", PyVal.pstr "hello")],
      PyVal.pdict [("content", PyVal.pstr "world")]] rfl
  exact ⟨rfl, hmain.1, hmain.2⟩

/-- Claim C6: when the extractor finds zero images, neither variant invokes
Stage-1 (no OCR call, no vision request), no header fragment is emitted, and
the one issued request goes to the reasoning model with the bare-question
prompt built from the user's message alone. -/
theorem claim6_main (dec : String → Except String (List Nat)) (tess : Bool)
    (ocr : List Nat → Except String String) (um : String)
    (msgsA msgsL : List PyVal) (trA trL : OllamaRequest → HttpOutcome)
    (tA tL : String) (imgsL : List String)
    (hA : extractImagesA dec msgsA = Except.ok ([], tA))
    (hL : hasImagesL msgsL = Except.ok (false, imgsL, tL)) :
    pipeA dec tess ocr um msgsA trA = Except.ok
      { fragments := (callOllamaStreamA (promptBareA um) trA).1
        ocrCalls := []
        requests := [aliceReq (promptBareA um)] }
    ∧ pipeL um msgsL trL = Except.ok
      { fragments := (callOllamaL "deepseek-r1:8b" (promptBareL um) [] true trL).1
        requests := [mkReq "deepseek-r1:8b" (promptBareL um) true []] } := by
  constructor
  · simp [pipeA, hA, callOllamaStreamA]
  · simp [pipeL, hL, callOllamaL]

/-- Claim C6, witness: a single text-only message goes straight to one
streaming reasoning request whose fragments are the backend chunks. -/
theorem claim6_witness :
    pipeA b64decodeModel true (fun _ => Except.error "err") "q"
        [PyVal.pdict [("content", PyVal.pstr "q")]]
        (fun _ => HttpOutcome.response 200 [StreamLine.obj (some "ans")]
          (Except.ok none)) =
      Except.ok
        { fragments := ["ans"]
          ocrCalls := []
          requests := [aliceReq (promptBareA "q")] }
    ∧ pipeL "q" [PyVal.pdict [("content", PyVal.pstr "q")]]
        (fun _ => HttpOutcome.response 200 [StreamLine.obj (some "ans")]
          (Except.ok none)) =
      Except.ok
        { fragments := ["ans"]
          requests := [mkReq "deepseek-r1:8b" (promptBareL "q") true []] } := by
  have hmain := claim6_main b64decodeModel true (fun _ => Except.error "err") "q"
    [PyVal.pdict [("content", PyVal.pstr "q")]]
    [PyVal.pdict [("content", PyVal.pstr "q")]]
    (fun _ => HttpOutcome.response 200 [StreamLine.obj (some "ans")] (Except.ok none))
    (fun _ => HttpOutcome.response 200 [StreamLine.obj (some "ans")] (Except.ok none))
    "q" "q" [] rfl rfl
  exact ⟨hmain.1, hmain.2⟩

/-- Claim C7: with images present (and pytesseract available), the alice
`pipe` runs OCR over the images sequentially in input order, the combined
Stage-1 output is the per-image outputs joined by blank lines in that order,
and each per-image output is either the stripped recognised text or the
inline "Error reading image: ..." string, without failing the batch. -/
theorem claim7_main (dec : String → Except String (List Nat))
    (ocr : List Nat → Except String String) (um : String) (msgs : List PyVal)
    (tr : OllamaRequest → HttpOutcome) (imgs : List (List Nat)) (txt : String)
    (hx : extractImagesA dec msgs = Except.ok (imgs, txt)) (hne : imgs ≠ []) :
    pipeA dec true ocr um msgs tr = Except.ok
      { fragments := [aliceHdr1,
          extractedTextFrag
            (String.intercalate "\n\n" (imgs.map (ocrImage true ocr))),
          aliceHdr2]
            ++ (callOllamaStreamA
                (promptImagesA
                  (String.intercalate "\n\n" (imgs.map (ocrImage true ocr))) um)
                tr).1
        ocrCalls := imgs
        requests := [aliceReq (promptImagesA
            (String.intercalate "\n\n" (imgs.map (ocrImage true ocr))) um)] }
    ∧ ∀ b, (∃ t, ocr b = Except.ok t ∧ ocrImage true ocr b = pyStrip t)
        ∨ (∃ e, ocr b = Except.error e ∧
            ocrImage true ocr b = "Error reading image: " ++ e) := by
  constructor
  · have he : imgs.isEmpty = false := by
      cases imgs with
      | nil => exact absurd rfl hne
      | cons a l => rfl
    simp [pipeA, hx, he, ocrStage, callOllamaStreamA]
  · intro b
    cases ho : ocr b with
    | ok t => exact Or.inl ⟨t, rfl, by simp [ocrImage, ho]⟩
    | error e => exact Or.inr ⟨e, rfl, by simp [ocrImage, ho]⟩

/-- Claim C7, witness: one decodable image is OCRed (oracle returns " HI ",
stripped to "HI"), the combined text and prompt embed it, and a second
buffer's OCR error becomes the inline error string. -/
theorem claim7_witness :
    pipeA b64decodeModel true
        (fun b => if b = [104, 105] then Except.ok " HI " else Except.error "boom")
        "q" [mkMsg "user" [mkImgItem "data:image/png;base64,aGk="]]
        (fun _ => HttpOutcome.failed "down") =
      Except.ok
        { fragments := [aliceHdr1, extractedTextFrag "HI", aliceHdr2,
            errCall "deepseek-r1:8b" "down"]
          ocrCalls := [[104, 105]]
          requests := [aliceReq (promptImagesA "HI" "q")] }
    ∧ ocrImage true
        (fun b => if b = [104, 105] then Except.ok " HI " else Except.error "boom")
        [1] = "Error reading image: " ++ "boom" := by
  have hmain := claim7_main b64decodeModel
    (fun b => if b = [104, 105] then Except.ok " HI " else Except.error "boom")
    "q" [mkMsg "user" [mkImgItem "data:image/png;base64,aGk="]]
    (fun _ => HttpOutcome.failed "down") [[104, 105]] "" rfl (by decide)
  exact ⟨hmain.1, rfl⟩

/-- Claim C8, counterexample: `_call_ollama_sync` called with an empty image
list still issues one backend request (with the `images` key omitted) and
returns the model's response — here "hello" — rather than producing empty
output with no operation. -/
theorem claim8_counterexample :
    callOllamaSync "llava:13b" "p" []
        (fun _ => HttpOutcome.response 200 [] (Except.ok (some "hello"))) =
      ("hello", [OllamaRequest.mk "llava:13b" "p" false none])
    ∧ "hello" ≠ "" :=
  ⟨rfl, by decide⟩

/-- Claim C8 (amended): the alice OCR stage on an empty image list performs
no OCR call and yields empty combined output, and neither strategy modifies
caller state (both are pure functions of their inputs); but the legal
`_call_ollama_sync` on an empty image list still issues exactly one backend
request — merely omitting the `images` field — and returns the response
field of whatever the model answers (in the legal `pipe` it is only invoked
when images are present). -/
theorem claim8_amended (tess : Bool) (ocr : List Nat → Except String String)
    (model prompt : String) (tr : OllamaRequest → HttpOutcome) :
    ocrStage tess ocr [] = []
    ∧ String.intercalate "\n\n" (ocrStage tess ocr []) = ""
    ∧ (callOllamaSync model prompt [] tr).2 =
        [OllamaRequest.mk model prompt false none]
    ∧ (∀ st lines s, tr (OllamaRequest.mk model prompt false none) =
          HttpOutcome.response st lines (Except.ok (some s)) →
        raiseForStatus st = false →
        (callOllamaSync model prompt [] tr).1 = s) := by
  refine ⟨rfl, rfl, rfl, fun st lines s h hr => ?_⟩
  simp [callOllamaSync, mkReq, h, hr]

/-- Claim C8, witness: with a concrete transport answering "hi", the sync
call on zero images issues its one request and returns "hi"; the OCR stage
on zero images is empty. -/
theorem claim8_witness :
    ocrStage true (fun _ => Except.ok "t") [] = []
    ∧ (callOllamaSync "llava:13b" "p"
        [] (fun _ => HttpOutcome.response 200 [] (Except.ok (some "hi")))).1 = "hi" := by
  have hmain := claim8_amended true (fun _ => Except.ok "t") "llava:13b" "p"
    (fun _ => HttpOutcome.response 200 [] (Except.ok (some "hi")))
  exact ⟨hmain.1, hmain.2.2.2 200 [] "hi" rfl rfl⟩

/-- Claim C9: in the image branch, an empty (falsy) `user_message` makes the
alice reasoning prompt fall back to "What is the correct answer?" and the
legal one to "Analyze this and provide legal reasoning."; a non-empty
(truthy) `user_message` appears verbatim instead.  The choice depends only
on the string's truthiness, as the prompt for the empty string coincides
with the prompt for the literal fallback text. -/
theorem claim9_main (c : String) :
    ContainsSub (promptImagesA c "") "What is the correct answer?"
    ∧ ContainsSub (promptImagesL c "") "Analyze this and provide legal reasoning."
    ∧ promptImagesA c "" = promptImagesA c "What is the correct answer?"
    ∧ promptImagesL c "" = promptImagesL c "Analyze this and provide legal reasoning."
    ∧ ∀ um : String, um ≠ "" →
        ContainsSub (promptImagesA c um) um ∧ ContainsSub (promptImagesL c um) um := by
  refine ⟨⟨_, _, rfl⟩, ⟨_, _, rfl⟩, rfl, rfl, fun um hum => ⟨?_, ?_⟩⟩
  · have h : promptImagesA c um =
        ("You are a legal reasoning assistant for Texas bar exam preparation.\n\nHere is the question extracted from the image:\n"
          ++ c ++ "\n\nUser asks: ") ++ um ++
        "\n\nProvide thorough legal analysis:\n1. Identify the legal issue(s) being tested\n2. State the applicable rule(s) of law\n3. Apply the rule to these specific facts\n4. Analyze each answer choice - explain why it is correct or incorrect\n5. State the best answer with confidence" := by
      simp [promptImagesA, hum, String.append_assoc]
    rw [h]
    exact containsSub_mid _ _ um
  · have h : promptImagesL c um =
        ("You are a legal reasoning assistant helping with Texas bar exam preparation.\n\nBased on this image content:\n"
          ++ c ++ "\n\nUser's question: ") ++ um ++
        "\n\nProvide thorough legal analysis. If this is a multiple choice question:\n1. Identify the legal issue(s)\n2. State the applicable rule(s) of law\n3. Apply the rule to the facts\n4. Explain why each answer choice is correct or incorrect\n5. State the best answer with confidence" := by
      simp [promptImagesL, hum, String.append_assoc]
    rw [h]
    exact containsSub_mid _ _ um

/-- Claim C9, witness: concrete fallback and passthrough instances for both
variants. -/
theorem claim9_witness :
    ContainsSub (promptImagesA "ocr" "") "What is the correct answer?"
    ∧ ContainsSub (promptImagesL "ocr" "") "Analyze this and provide legal reasoning."
    ∧ ContainsSub (promptImagesA "ocr" "my question") "my question"
    ∧ ContainsSub (promptImagesL "ocr" "my question") "my question" := by
  have hmain := claim9_main "ocr"
  have hq := hmain.2.2.2.2 "my question" (by decide)
  exact ⟨hmain.1, hmain.2.1, hq.1, hq.2⟩

/-- Claim C10: a non-streaming legal-variant call whose HTTP request
succeeds (status outside 400-599) but whose JSON body has no `response`
field returns the empty string — `_call_ollama_sync` returns "" and
`_call_ollama` with stream=False yields the single fragment "" — with no
error and no exception. -/
theorem claim10_main (model prompt : String) (images : List String)
    (tr : OllamaRequest → HttpOutcome) (st : Nat) (lines : List StreamLine)
    (h : tr (mkReq model prompt false images) =
      HttpOutcome.response st lines (Except.ok none))
    (hr : raiseForStatus st = false) :
    callOllamaSync model prompt images tr = ("", [mkReq model prompt false images])
    ∧ callOllamaL model prompt images false tr =
        ([""], [mkReq model prompt false images]) := by
  constructor
  · simp [callOllamaSync, h, hr]
  · simp [callOllamaL, h, hr]

/-- Claim C10, witness: a 200-status body without a `response` field gives
"" from the sync call and [""] from the non-streaming call. -/
theorem claim10_witness :
    callOllamaSync "llava:13b" "p" ["img"]
        (fun _ => HttpOutcome.response 200 [] (Except.ok none)) =
      ("", [mkReq "llava:13b" "p" false ["img"]])
    ∧ callOllamaL "llava:13b" "p" ["img"] false
        (fun _ => HttpOutcome.response 200 [] (Except.ok none)) =
      ([""], [mkReq "llava:13b" "p" false ["img"]]) := by
  have hmain := claim10_main "llava:13b" "p" ["img"]
    (fun _ => HttpOutcome.response 200 [] (Except.ok none)) 200 [] rfl rfl
  exact ⟨hmain.1, hmain.2⟩

end OpenWebUI
